import Mathlib

/-!
Shallow embedding of `src/sparc/client/client.py` (class `SparcClient`).

Python dictionaries are modelled as association lists with unique keys
(insertion order preserved, first-match lookup).  `ConfigParser` objects are
modelled as a mapping from section name to section, a section being a mapping
from option name to string value.  Exceptions are modelled with `Except String`
carrying the Python exception class name.  The option-name case folding of
`ConfigParser` (`optionxform`) is not modelled: keys are taken in the canonical
case the program uses.
-/

namespace SparcClient

/-- Python `d[k]` / `d.get(k)` on an association list: first matching key. -/
def getKey (d : List (String × α)) (k : String) : Option α :=
  match d with
  | [] => none
  | (k', v) :: rest => if k' = k then some v else getKey rest k

/-- Python `d[k] = v`: replace the value in place when the key exists,
otherwise append the pair (dictionary insertion order). -/
def setKey (d : List (String × α)) (k : String) (v : α) : List (String × α) :=
  match d with
  | [] => [(k, v)]
  | (k', v') :: rest => if k' = k then (k, v) :: rest else (k', v') :: setKey rest k v

/-- Python `base.update(upd)`: assign every pair of `upd` into `base`. -/
def dictUpdate (base upd : List (String × α)) : List (String × α) :=
  upd.foldl (fun acc kv => setKey acc kv.1 kv.2) base

/-- A `ConfigParser` section: option name to string value. -/
abbrev Sect := List (String × String)

/-- A `ConfigParser`: section name to section. -/
abbrev Config := List (String × Sect)

/-- Python `config[s][k]`. -/
def sectGet (c : Config) (s k : String) : Option String :=
  (getKey c s).bind (fun sec => getKey sec k)

/-- A value of a Python configuration dictionary: either a plain string or a
nested mapping (a would-be section). -/
inductive CVal where
  | str (s : String)
  | sect (m : Sect)
deriving DecidableEq

/-- A Python dictionary passed to `from_dict`. -/
abbrev CDict := List (String × CVal)

/-- The seed default section `{"pennsieve_profile_name": "pennsieve"}`. -/
def seedSect : Sect := [("pennsieve_profile_name", "pennsieve")]

/-- The seeded configuration built at the start of `SparcClient.__init__`:
`config["global"] = {"default_profile": "default"}` and
`config["default"] = {"pennsieve_profile_name": "pennsieve"}`. -/
def seedConfig : Config :=
  [("global", [("default_profile", "default")]),
   ("default", seedSect)]

/-- The flatness test of `from_dict` (client.py line 148):
`"global" not in config_dict or not isinstance(config_dict.get("global"), dict)`. -/
def isFlat (config_dict : CDict) : Bool :=
  match getKey config_dict "global" with
  | some (CVal.sect _) => false
  | _ => true

/-- Assigning a flat dictionary as a `ConfigParser` section: every value must
be a string, otherwise `ConfigParser` raises a `TypeError`. -/
def flatEntries : CDict → Except String Sect
  | [] => .ok []
  | (k, CVal.str v) :: rest => (flatEntries rest).map (fun r => (k, v) :: r)
  | (_, CVal.sect _) :: _ => .error "TypeError"

/-- Iterating `config_dict.items()` and assigning each value as a section:
every top-level value must itself be a mapping, otherwise the assignment
raises. -/
def sectEntries : CDict → Except String Config
  | [] => .ok []
  | (k, CVal.sect m) :: rest => (sectEntries rest).map (fun r => (k, m) :: r)
  | (_, CVal.str _) :: _ => .error "AttributeError"

/-- `SparcClient.from_dict` (client.py lines 144-167), restricted to the
construction of `instance.config`.  Returns the built configuration together
with the caller's dictionary as it stands after the call (the nested branch
mutates it in place at line 159). -/
def fromDict (config_dict : CDict) : Except String (Config × CDict) :=
  if isFlat config_dict then
    match flatEntries config_dict with
    | .error e => .error e
    | .ok flat =>
        .ok ([("global", [("default_profile", "default")]),
              ("default", dictUpdate seedSect flat)],
             config_dict)
  else
    let p :=
      match getKey config_dict "global" with
      | some (CVal.sect g) => (getKey g "default_profile").getD "default"
      | _ => "default"
    let d :=
      if (getKey config_dict p).isSome then config_dict
      else config_dict ++ [(p, CVal.sect seedSect)]
    match sectEntries d with
    | .error e => .error e
    | .ok secs => .ok (dictUpdate [] secs, d)

/-! Lemmas about the dictionary model. -/

theorem getKey_setKey (d : List (String × α)) (k m : String) (v : α) :
    getKey (setKey d k v) m = if k = m then some v else getKey d m := by
  induction d with
  | nil =>
      by_cases h : k = m <;> simp [getKey, setKey, h]
  | cons kv rest ih =>
      obtain ⟨k', v'⟩ := kv
      by_cases hk : k' = k
      · subst hk
        by_cases h : k' = m <;> simp [getKey, setKey, h]
      · by_cases h : k' = m
        · subst h
          have hkm : ¬ k = k' := fun he => hk he.symm
          simp [getKey, setKey, hk, hkm]
        · simp [getKey, setKey, hk, h, ih]

theorem getKey_append (l₁ l₂ : List (String × α)) (k : String) :
    getKey (l₁ ++ l₂) k = (getKey l₁ k).orElse (fun _ => getKey l₂ k) := by
  induction l₁ with
  | nil => simp [getKey]
  | cons kv rest ih =>
      by_cases h : kv.1 = k <;> simp [getKey, h, ih]

theorem getKey_eq_none (l : List (String × α)) (k : String)
    (h : k ∉ l.map Prod.fst) : getKey l k = none := by
  induction l with
  | nil => rfl
  | cons kv rest ih =>
      have h1 : kv.1 ≠ k := by
        intro he
        exact h (by simp [he])
      have h2 : k ∉ rest.map Prod.fst := by
        intro hm
        exact h (by simp [hm])
      simp [getKey, h1, ih h2]

theorem getKey_dictUpdate (base upd : List (String × α)) (k : String)
    (hnd : (upd.map Prod.fst).Nodup) :
    getKey (dictUpdate base upd) k =
      (getKey upd k).orElse (fun _ => getKey base k) := by
  induction upd generalizing base with
  | nil => simp [dictUpdate, getKey]
  | cons kv rest ih =>
      obtain ⟨k0, v0⟩ := kv
      simp only [List.map_cons, List.nodup_cons] at hnd
      obtain ⟨hk0, hrest⟩ := hnd
      have step : dictUpdate base ((k0, v0) :: rest) = dictUpdate (setKey base k0 v0) rest := rfl
      rw [step, ih _ hrest]
      by_cases h : k0 = k
      · subst h
        simp [getKey, getKey_eq_none rest k0 hk0, getKey_setKey]
      · simp [getKey, h, getKey_setKey]

/-- The string content of a configuration value, when it is a string. -/
def asStr : CVal → Option String
  | CVal.str s => some s
  | CVal.sect _ => none

/-- The section content of a configuration value, when it is a mapping. -/
def asSect : CVal → Option Sect
  | CVal.sect m => some m
  | CVal.str _ => none

/-- Every value of the dictionary is a plain string (a flat dictionary of
configuration values). -/
def allStr (d : CDict) : Bool :=
  d.all (fun q => match q.2 with | CVal.str _ => true | CVal.sect _ => false)

/-- Every value of the dictionary is itself a mapping (a nested, INI-style
dictionary). -/
def allSect (d : CDict) : Bool :=
  d.all (fun q => match q.2 with | CVal.sect _ => true | CVal.str _ => false)

theorem flatEntries_of_allStr (M : CDict) (h : allStr M = true) :
    ∃ flat, flatEntries M = .ok flat ∧ flat.map Prod.fst = M.map Prod.fst ∧
      ∀ k, getKey flat k = (getKey M k).bind asStr := by
  induction M with
  | nil => exact ⟨[], rfl, rfl, fun k => rfl⟩
  | cons q rest ih =>
      obtain ⟨k0, v0⟩ := q
      simp only [allStr, List.all_cons, Bool.and_eq_true] at h
      obtain ⟨hv, hrest⟩ := h
      obtain ⟨flat, hok, hkeys, hget⟩ := ih hrest
      cases v0 with
      | sect m => simp at hv
      | str s =>
          refine ⟨(k0, s) :: flat, ?_, ?_, ?_⟩
          · simp [flatEntries, hok, Except.map]
          · simp [hkeys]
          · intro k
            by_cases hk : k0 = k <;> simp [getKey, hk, hget, asStr]

theorem sectEntries_of_allSect (d : CDict) (h : allSect d = true) :
    ∃ secs, sectEntries d = .ok secs ∧ secs.map Prod.fst = d.map Prod.fst ∧
      ∀ k, getKey secs k = (getKey d k).bind asSect := by
  induction d with
  | nil => exact ⟨[], rfl, rfl, fun k => rfl⟩
  | cons q rest ih =>
      obtain ⟨k0, v0⟩ := q
      simp only [allSect, List.all_cons, Bool.and_eq_true] at h
      obtain ⟨hv, hrest⟩ := h
      obtain ⟨secs, hok, hkeys, hget⟩ := ih hrest
      cases v0 with
      | str s => simp at hv
      | sect m =>
          refine ⟨(k0, m) :: secs, ?_, ?_, ?_⟩
          · simp [sectEntries, hok, Except.map]
          · simp [hkeys]
          · intro k
            by_cases hk : k0 = k <;> simp [getKey, hk, hget, asSect]

theorem fromDict_flat_spec (M : CDict)
    (hflat : isFlat M = true)
    (hstr : allStr M = true)
    (hnd : (M.map Prod.fst).Nodup) :
    ∃ cfg, fromDict M = .ok (cfg, M) ∧
      sectGet cfg "global" "default_profile" = some "default" ∧
      ∀ k, sectGet cfg "default" k =
        ((getKey M k).bind asStr).orElse (fun _ => getKey seedSect k) := by
  obtain ⟨flat, hok, hkeys, hget⟩ := flatEntries_of_allStr M hstr
  refine ⟨[("global", [("default_profile", "default")]),
           ("default", dictUpdate seedSect flat)], ?_, ?_, ?_⟩
  · simp [fromDict, hflat, hok]
  · simp [sectGet, getKey]
  · intro k
    have hnd' : (flat.map Prod.fst).Nodup := hkeys ▸ hnd
    simp [sectGet, getKey, getKey_dictUpdate seedSect flat k hnd', hget]

/-- C1: for every flat input dictionary, `from_dict` builds a configuration
whose `global` section maps `default_profile` to `"default"`, and whose
`default` section is the seed `{pennsieve_profile_name: "pennsieve"}` overlaid
with every key/value pair of the input, the input winning on conflicts. -/
theorem from_dict_flat_resolves (M : CDict)
    (hflat : isFlat M = true)
    (hstr : allStr M = true)
    (hnd : (M.map Prod.fst).Nodup) :
    ∃ cfg, fromDict M = .ok (cfg, M) ∧
      sectGet cfg "global" "default_profile" = some "default" ∧
      ∀ k, sectGet cfg "default" k =
        ((getKey M k).bind asStr).orElse (fun _ => getKey seedSect k) :=
  fromDict_flat_spec M hflat hstr hnd

/-- Witness for C1: the spec scenario
`{"pennsieve_profile_name": "prod", "scicrunch_api_key": "key"}`. -/
theorem from_dict_flat_resolves_witness :
    isFlat [("pennsieve_profile_name", CVal.str "prod"),
            ("scicrunch_api_key", CVal.str "key")] = true ∧
    allStr [("pennsieve_profile_name", CVal.str "prod"),
            ("scicrunch_api_key", CVal.str "key")] = true ∧
    (([("pennsieve_profile_name", CVal.str "prod"),
       ("scicrunch_api_key", CVal.str "key")] : CDict).map Prod.fst).Nodup ∧
    ∃ cfg, fromDict [("pennsieve_profile_name", CVal.str "prod"),
                     ("scicrunch_api_key", CVal.str "key")] =
        .ok (cfg, [("pennsieve_profile_name", CVal.str "prod"),
                   ("scicrunch_api_key", CVal.str "key")]) ∧
      sectGet cfg "global" "default_profile" = some "default" ∧
      ∀ k, sectGet cfg "default" k =
        ((getKey [("pennsieve_profile_name", CVal.str "prod"),
                  ("scicrunch_api_key", CVal.str "key")] k).bind asStr).orElse
          (fun _ => getKey seedSect k) :=
  ⟨by decide, by decide, by decide,
   from_dict_flat_resolves _ (by decide) (by decide) (by decide)⟩

/-! Plugin units and the facade.

The `services` package itself is not among the sources; the classes below are
modelled from the spec: a Service is "any object constructible from
(connect: bool, config: section-mapping) exposing an optional connect()
operation", a unit is an importable module that "may yield zero, one, or
multiple qualifying types". -/

/-- Modelled from the spec: a concrete, non-abstract Service class found among
a unit's attributes.  `id` identifies the class (and the instance built from
it); `hasConnect` says whether instances expose a `connect()` operation. -/
structure ServiceClass where
  id : Nat
  hasConnect : Bool
deriving DecidableEq

/-- Modelled from the spec: a plugin unit as seen by `add_module`: its import
path, whether importing it succeeds, and the qualifying Service classes among
its attributes, in `dir(module)` order. -/
structure PlugUnit where
  path : String
  importable : Bool
  classes : List ServiceClass
deriving DecidableEq

/-- A Service instance, as produced by `attribute(connect=connect, config=config)`. -/
structure Service where
  clsId : Nat
  hasConnect : Bool
deriving DecidableEq

/-- Instantiation of a qualifying class (client.py line 260). -/
def instantiate (cls : ServiceClass) : Service :=
  ⟨cls.id, cls.hasConnect⟩

/-- The facade state touched by module discovery: the `module_names` list and
the dynamically named service attributes (`setattr`, client.py line 261). -/
structure Facade where
  module_names : List String
  attrs : List (String × Service)
deriving DecidableEq

/-- The module short name (client.py line 248):
`path.split(".")[-1] if "." in path else path`, i.e. the part of the path
after its last dot. -/
def moduleShortName (path : String) : String :=
  String.mk ((path.data.reverse.takeWhile (fun c => c ≠ '.')).reverse)

/-- The loop over a unit's qualifying classes (client.py lines 251-263): each
one appends the module short name to `module_names` and binds the freshly
instantiated service to the facade attribute of that name. -/
def registerClasses (name : String) (st : Facade) : List ServiceClass → Facade
  | [] => st
  | cls :: rest =>
      registerClasses name
        ⟨st.module_names ++ [name], setKey st.attrs name (instantiate cls)⟩ rest

/-- Processing of one path by `add_module` (client.py lines 247-269): importing
the unit and registering its classes; on `ModuleNotFoundError` the handler logs
and re-raises. -/
def addUnit (st : Facade) (u : PlugUnit) : Except String Facade :=
  if u.importable then
    .ok (registerClasses (moduleShortName u.path) st u.classes)
  else
    .error "ModuleNotFoundError"

/-- `SparcClient.add_module` (client.py lines 225-269) over an explicit list of
paths.  The `connect` flag only triggers each new service's own connect call,
which does not change the modelled facade state. -/
def add_module (st : Facade) (paths : List PlugUnit) : Except String Facade :=
  match paths with
  | [] => .ok st
  | u :: rest =>
      match addUnit st u with
      | .ok st' => add_module st' rest
      | .error e => .error e

/-- The enumeration loop of `_initialize_modules` (client.py lines 97-101):
for each unit of the services directory, the profile section
`self.config[current_config]` is evaluated (a `KeyError` when the section is
absent) before `add_module` runs on the unit. -/
def initLoop (config : Config) (current : String) (st : Facade) :
    List PlugUnit → Except String Facade
  | [] => .ok st
  | u :: rest =>
      match getKey config current with
      | none => .error "KeyError"
      | some _ =>
          match addUnit st u with
          | .ok st' => initLoop config current st' rest
          | .error e => .error e

/-- `SparcClient._initialize_modules` (client.py lines 80-101):
`current_config = self.config["global"]["default_profile"]` (a `KeyError` when
absent), then the enumeration loop starting from an empty module list. -/
def init_modules (config : Config) (units : List PlugUnit) : Except String Facade :=
  match sectGet config "global" "default_profile" with
  | none => .error "KeyError"
  | some current_config => initLoop config current_config ⟨[], []⟩ units

/-- Outcome of `ConfigParser.read(config_file)` on the given path: the file is
missing (silently ignored), fails to parse — `kept` holds the sections already
parsed before the error, since `ConfigParser._read` stores sections in place
as it parses and raises `ParsingError` only afterwards — or parses fully into
the given sections. -/
inductive ReadOutcome where
  | missing
  | malformed (kept : Config)
  | parsed (sections : Config)
deriving DecidableEq

/-- The section merge performed by `ConfigParser.read`: each incoming section
updates the existing section of the same name key by key, or is appended as a
new section. -/
def mergeRead (c : Config) (ss : Config) : Config :=
  ss.foldl (fun acc sec =>
    match getKey acc sec.1 with
    | some old => setKey acc sec.1 (dictUpdate old sec.2)
    | none => setKey acc sec.1 sec.2) c

/-- `self.config.read(config_file)` inside the `try` of `__init__` (client.py
lines 71-76): a missing file is silently ignored; a parse failure raises (the
exception is caught by the handler) but the sections parsed before the error
have already been merged into the configuration and remain; a fully parsed
file merges all of its sections. -/
def configRead (c : Config) : ReadOutcome → Config
  | ReadOutcome.missing => c
  | ReadOutcome.malformed kept => mergeRead c kept
  | ReadOutcome.parsed ss => mergeRead c ss

/-- `SparcClient.__init__` (client.py lines 64-78, also reached through
`from_file`): seed the configuration, read the file under `try`, then run
`_initialize_modules` over the units of the services directory. -/
def clientInit (config_file : ReadOutcome) (units : List PlugUnit) :
    Except String (Config × Facade) :=
  let config := configRead seedConfig config_file
  (init_modules config units).map (fun st => (config, st))

/-- The loop of `SparcClient.connect` (client.py lines 273-276): for each
recorded module name, `getattr` the service (an `AttributeError` when the
attribute is missing) and call its `connect()` when it has one.  Returns the
trace of calls as (module name, instance id) pairs. -/
def connectCalls (attrs : List (String × Service)) :
    List String → Option (List (String × Nat))
  | [] => some []
  | n :: rest =>
      match getKey attrs n with
      | none => none
      | some m =>
          (connectCalls attrs rest).map (fun t =>
            if m.hasConnect then (n, m.clsId) :: t else t)

/-- `SparcClient.connect` (client.py lines 271-277): run the loop and return
`True`. -/
def connectAll (st : Facade) : Option (List (String × Nat) × Bool) :=
  (connectCalls st.attrs st.module_names).map (fun t => (t, true))

/-- Number of occurrences of a call in a connect trace. -/
def countOcc (x : String × Nat) : List (String × Nat) → Nat
  | [] => 0
  | y :: t => (if y = x then 1 else 0) + countOcc x t

/-- Number of occurrences of a module name in `module_names`. -/
def countName (n : String) : List String → Nat
  | [] => 0
  | m :: t => (if m = n then 1 else 0) + countName n t

/-- Whether the facade attribute bound to a name exposes `connect`. -/
def hasConn (attrs : List (String × Service)) (n : String) : Bool :=
  match getKey attrs n with
  | some svc => svc.hasConnect
  | none => false

/-! Discovery and construction lemmas. -/

theorem initLoop_ok (cfg : Config) (current : String) (units : List PlugUnit)
    (hsec : (getKey cfg current).isSome)
    (himp : ∀ u ∈ units, u.importable = true) :
    ∀ st, ∃ st', initLoop cfg current st units = .ok st' := by
  induction units with
  | nil => exact fun st => ⟨st, rfl⟩
  | cons u rest ih =>
      intro st
      obtain ⟨sec, hsec'⟩ := Option.isSome_iff_exists.mp hsec
      have hu : u.importable = true := himp u (by simp)
      have hrest : ∀ v ∈ rest, v.importable = true := fun v hv => himp v (by simp [hv])
      obtain ⟨st', hst'⟩ := ih hrest (registerClasses (moduleShortName u.path) st u.classes)
      exact ⟨st', by simp [initLoop, hsec', addUnit, hu, hst']⟩

theorem init_modules_ok (cfg : Config) (units : List PlugUnit) (p : String)
    (hp : sectGet cfg "global" "default_profile" = some p)
    (hsec : (getKey cfg p).isSome)
    (himp : ∀ u ∈ units, u.importable = true) :
    ∃ st, init_modules cfg units = .ok st := by
  obtain ⟨st, hst⟩ := initLoop_ok cfg p units hsec himp ⟨[], []⟩
  exact ⟨st, by simp [init_modules, hp, hst]⟩

/-- Counterexample for C4 as stated: a malformed file that parses
`[global]` with `default_profile = custom` before hitting a bad line.
`ConfigParser._read` has already stored the section when the caught
`ParsingError` is raised, so after construction `global.default_profile` is
not `"default"` — and since no section `custom` exists, construction itself
raises a `KeyError` instead of returning a facade. -/
theorem init_malformed_keeps_parsed_counterexample :
    clientInit (ReadOutcome.malformed [("global", [("default_profile", "custom")])])
      [⟨"sparc.client.services.pennsieve", true, [⟨0, true⟩]⟩] = .error "KeyError" ∧
    sectGet (configRead seedConfig
        (ReadOutcome.malformed [("global", [("default_profile", "custom")])]))
      "global" "default_profile" ≠ some "default" :=
  ⟨rfl, by decide⟩

/-- C4 (amended): a missing file — or a malformed file whose parse error hits
before any section is parsed — is swallowed by `__init__`: file mode
construction succeeds and the configuration is the seeded default, with
`global.default_profile = "default"` and
`default.pennsieve_profile_name = "pennsieve"`.  A malformed file in general
keeps the sections parsed before the error, which can change the
configuration or make construction raise. -/
theorem init_unparsed_file_uses_seed_defaults (outcome : ReadOutcome)
    (units : List PlugUnit)
    (hout : outcome = ReadOutcome.missing ∨ outcome = ReadOutcome.malformed [])
    (himp : ∀ u ∈ units, u.importable = true) :
    ∃ st, clientInit outcome units = .ok (seedConfig, st) ∧
      sectGet seedConfig "global" "default_profile" = some "default" ∧
      sectGet seedConfig "default" "pennsieve_profile_name" = some "pennsieve" := by
  have hcfg : configRead seedConfig outcome = seedConfig := by
    rcases hout with h | h <;> subst h <;> rfl
  obtain ⟨st, hst⟩ := init_modules_ok seedConfig units "default" (by decide) (by decide) himp
  exact ⟨st, by simp [clientInit, hcfg, hst, Except.map], by decide, by decide⟩

/-- Witness for C4: a missing `config.ini` and one importable unit. -/
theorem init_unparsed_file_uses_seed_defaults_witness :
    (ReadOutcome.missing = ReadOutcome.missing ∨
      ReadOutcome.missing = ReadOutcome.malformed []) ∧
    (∀ u ∈ [(⟨"sparc.client.services.pennsieve", true, [⟨0, true⟩]⟩ : PlugUnit)],
      u.importable = true) ∧
    ∃ st, clientInit ReadOutcome.missing
        [⟨"sparc.client.services.pennsieve", true, [⟨0, true⟩]⟩] = .ok (seedConfig, st) ∧
      sectGet seedConfig "global" "default_profile" = some "default" ∧
      sectGet seedConfig "default" "pennsieve_profile_name" = some "pennsieve" :=
  ⟨Or.inl rfl, by decide,
   init_unparsed_file_uses_seed_defaults ReadOutcome.missing _ (Or.inl rfl) (by decide)⟩

/-- C5: when the file parses but `global.default_profile` names a section
absent from the resulting configuration, construction raises a `KeyError`
that is not caught. -/
theorem init_missing_profile_keyerror (ss : Config) (units : List PlugUnit) (p : String)
    (hp : sectGet (configRead seedConfig (ReadOutcome.parsed ss))
        "global" "default_profile" = some p)
    (habs : getKey (configRead seedConfig (ReadOutcome.parsed ss)) p = none)
    (hne : units ≠ []) :
    clientInit (ReadOutcome.parsed ss) units = .error "KeyError" := by
  cases units with
  | nil => exact absurd rfl hne
  | cons u rest =>
      simp [clientInit, init_modules, hp, initLoop, habs, Except.map]

/-- Witness for C5: a parsed file whose `[global]` section points
`default_profile` at the nonexistent section `ci`. -/
theorem init_missing_profile_keyerror_witness :
    sectGet (configRead seedConfig
        (ReadOutcome.parsed [("global", [("default_profile", "ci")])]))
      "global" "default_profile" = some "ci" ∧
    getKey (configRead seedConfig
        (ReadOutcome.parsed [("global", [("default_profile", "ci")])])) "ci" = none ∧
    ([(⟨"sparc.client.services.pennsieve", true, [⟨0, true⟩]⟩ : PlugUnit)] ≠ []) ∧
    clientInit (ReadOutcome.parsed [("global", [("default_profile", "ci")])])
      [⟨"sparc.client.services.pennsieve", true, [⟨0, true⟩]⟩] = .error "KeyError" :=
  ⟨by decide, by decide, by decide,
   init_missing_profile_keyerror _ _ "ci" (by decide) (by decide) (by decide)⟩

/-- C3 (divergence exhibit): a unit of the services directory whose import
raises `ModuleNotFoundError` during bulk enumeration is not skipped: the
handler logs "Skipping module ..." but then re-raises, so construction aborts
with the error instead of returning a facade. -/
theorem bulk_enum_unimportable_raises :
    clientInit ReadOutcome.missing
      [⟨"sparc.client.services.broken", false, []⟩] = .error "ModuleNotFoundError" := by
  rfl

/-- C7: an explicitly supplied path that cannot be imported makes `add_module`
raise `ModuleNotFoundError` instead of returning normally. -/
theorem add_module_unimportable_raises (st : Facade) (paths : List PlugUnit)
    (u : PlugUnit) (hmem : u ∈ paths) (himp : u.importable = false) :
    add_module st paths = .error "ModuleNotFoundError" := by
  induction paths generalizing st with
  | nil => cases hmem
  | cons v rest ih =>
      rcases List.mem_cons.mp hmem with h | h
      · subst h
        simp [add_module, addUnit, himp]
      · by_cases hv : v.importable = true
        · simpa [add_module, addUnit, hv] using
            ih (registerClasses (moduleShortName v.path) st v.classes) h
        · simp [add_module, addUnit, hv]

/-- Witness for C7: the test scenario `add_module("sparc.client.xyz")` on an
unimportable path. -/
theorem add_module_unimportable_raises_witness :
    ((⟨"sparc.client.xyz", false, []⟩ : PlugUnit) ∈
      [(⟨"sparc.client.xyz", false, []⟩ : PlugUnit)]) ∧
    (⟨"sparc.client.xyz", false, []⟩ : PlugUnit).importable = false ∧
    add_module ⟨["pennsieve"], [("pennsieve", ⟨0, true⟩)]⟩
      [⟨"sparc.client.xyz", false, []⟩] = .error "ModuleNotFoundError" :=
  ⟨by decide, by decide,
   add_module_unimportable_raises ⟨["pennsieve"], [("pennsieve", ⟨0, true⟩)]⟩
     [⟨"sparc.client.xyz", false, []⟩] ⟨"sparc.client.xyz", false, []⟩
     (by decide) (by decide)⟩

theorem registerClasses_module_names (name : String) (st : Facade)
    (l : List ServiceClass) :
    (registerClasses name st l).module_names
      = st.module_names ++ List.replicate l.length name := by
  induction l generalizing st with
  | nil => simp [registerClasses]
  | cons cls rest ih =>
      simp [registerClasses, ih, List.replicate_succ, List.append_assoc]

theorem registerClasses_attr_last (name : String) (st : Facade)
    (l : List ServiceClass) (cls : ServiceClass) (hlast : l.getLast? = some cls) :
    getKey (registerClasses name st l).attrs name = some (instantiate cls) := by
  induction l generalizing st with
  | nil => cases hlast
  | cons c rest ih =>
      cases rest with
      | nil =>
          have hc : c = cls := by simpa using hlast
          subst hc
          simp [registerClasses, getKey_setKey]
      | cons c2 rest2 =>
          have hl : (c2 :: rest2).getLast? = some cls := by
            simpa [List.getLast?_cons_cons] using hlast
          simpa [registerClasses] using
            ih ⟨st.module_names ++ [name], setKey st.attrs name (instantiate c)⟩ hl

/-- C10: adding an importable unit holding `n ≥ 2` qualifying classes appends
the short name `n` times to `module_names`, while the facade attribute of that
name ends bound to the instance of the last class processed, each assignment
having overwritten the previous one. -/
theorem add_module_multiclass_last_wins (st : Facade) (u : PlugUnit)
    (cls : ServiceClass) (himp : u.importable = true)
    (hlen : 2 ≤ u.classes.length) (hlast : u.classes.getLast? = some cls) :
    ∃ st', add_module st [u] = .ok st' ∧
      st'.module_names = st.module_names ++
        List.replicate u.classes.length (moduleShortName u.path) ∧
      getKey st'.attrs (moduleShortName u.path) = some (instantiate cls) :=
  ⟨registerClasses (moduleShortName u.path) st u.classes,
   by simp [add_module, addUnit, himp],
   registerClasses_module_names _ _ _,
   registerClasses_attr_last _ _ _ _ hlast⟩

/-- Witness for C10: a unit with two qualifying classes. -/
theorem add_module_multiclass_last_wins_witness :
    (⟨"mock_service", true, [⟨1, true⟩, ⟨2, true⟩]⟩ : PlugUnit).importable = true ∧
    2 ≤ (⟨"mock_service", true, [⟨1, true⟩, ⟨2, true⟩]⟩ : PlugUnit).classes.length ∧
    (⟨"mock_service", true, [⟨1, true⟩, ⟨2, true⟩]⟩ : PlugUnit).classes.getLast?
      = some ⟨2, true⟩ ∧
    ∃ st', add_module ⟨[], []⟩ [⟨"mock_service", true, [⟨1, true⟩, ⟨2, true⟩]⟩] = .ok st' ∧
      st'.module_names = ([] : List String) ++
        List.replicate (⟨"mock_service", true, [⟨1, true⟩, ⟨2, true⟩]⟩ :
          PlugUnit).classes.length (moduleShortName "mock_service") ∧
      getKey st'.attrs (moduleShortName "mock_service") = some (instantiate ⟨2, true⟩) :=
  ⟨by decide, by decide, by decide,
   add_module_multiclass_last_wins ⟨[], []⟩ _ _ (by decide) (by decide) (by decide)⟩

/-! The nested branch of `from_dict`. -/

theorem getKey_isSome_of_mem (l : List (String × α)) (k : String)
    (h : k ∈ l.map Prod.fst) : (getKey l k).isSome := by
  induction l with
  | nil => simp at h
  | cons kv rest ih =>
      simp only [List.map_cons, List.mem_cons] at h
      by_cases hk : kv.1 = k
      · simp [getKey, hk]
      · rcases h with h | h
        · exact absurd h.symm hk
        · simp [getKey, hk, ih h]

theorem orElse_none (o : Option α) : (o.orElse (fun _ => none)) = o := by
  cases o <;> rfl

/-- C2: for a nested input whose `global.default_profile` is `p`, `from_dict`
synthesizes section `p` with the seed `{pennsieve_profile_name: "pennsieve"}`
when the input lacks key `p`, and copies every top-level mapping of the input
verbatim as a section (in particular, a section `p` supplied by the input is
not merged with the seed). -/
theorem from_dict_nested_resolves (M : CDict) (g : Sect) (p : String)
    (hg : getKey M "global" = some (CVal.sect g))
    (hp : getKey g "default_profile" = some p)
    (hsect : allSect M = true)
    (hnd : (M.map Prod.fst).Nodup) :
    ∃ cfg d, fromDict M = .ok (cfg, d) ∧
      (getKey M p = none →
        getKey cfg p = some seedSect ∧
        sectGet cfg p "pennsieve_profile_name" = some "pennsieve") ∧
      (∀ k m, getKey M k = some (CVal.sect m) → getKey cfg k = some m) := by
  have hflat : isFlat M = false := by simp [isFlat, hg]
  cases hMp : getKey M p with
  | some v =>
      obtain ⟨secs, hok, hkeys, hget⟩ := sectEntries_of_allSect M hsect
      refine ⟨dictUpdate [] secs, M, ?_, ?_, ?_⟩
      · simp [fromDict, hflat, hg, hp, hMp, hok]
      · intro h
        simp [hMp] at h
      · intro k m hk
        have hnd' : (secs.map Prod.fst).Nodup := hkeys ▸ hnd
        rw [getKey_dictUpdate [] secs k hnd', hget k, hk]
        rfl
  | none =>
      have hsect' : allSect (M ++ [(p, CVal.sect seedSect)]) = true := by
        simp [allSect, List.all_append] at hsect ⊢
        exact hsect
      obtain ⟨secs, hok, hkeys, hget⟩ :=
        sectEntries_of_allSect (M ++ [(p, CVal.sect seedSect)]) hsect'
      have hpnotin : p ∉ M.map Prod.fst := by
        intro hmem
        have := getKey_isSome_of_mem M p hmem
        rw [hMp] at this
        simp at this
      have hnd' : (secs.map Prod.fst).Nodup := by
        rw [hkeys]
        simp only [List.map_append, List.map_cons, List.map_nil]
        exact List.Nodup.append hnd (List.nodup_singleton p)
          (by simpa [List.disjoint_singleton] using hpnotin)
      have hcfg : ∀ k, getKey (dictUpdate [] secs) k =
          (getKey (M ++ [(p, CVal.sect seedSect)]) k).bind asSect := by
        intro k
        rw [getKey_dictUpdate [] secs k hnd', hget k]
        exact orElse_none _
      refine ⟨dictUpdate [] secs, M ++ [(p, CVal.sect seedSect)], ?_, ?_, ?_⟩
      · simp [fromDict, hflat, hg, hp, hMp, hok]
      · intro _
        have h1 : getKey (dictUpdate [] secs) p = some seedSect := by
          rw [hcfg p, getKey_append, hMp]
          simp [getKey, asSect]
        exact ⟨h1, by simp [sectGet, h1, seedSect, getKey]⟩
      · intro k m hk
        rw [hcfg k, getKey_append, hk]
        rfl

/-- Witness for C2: `{"global": {"default_profile": "prod"}}`, where the named
profile `prod` is absent from the input. -/
theorem from_dict_nested_resolves_witness :
    getKey [("global", CVal.sect [("default_profile", "prod")])] "global"
      = some (CVal.sect [("default_profile", "prod")]) ∧
    getKey [("default_profile", "prod")] "default_profile" = some "prod" ∧
    allSect [("global", CVal.sect [("default_profile", "prod")])] = true ∧
    (([("global", CVal.sect [("default_profile", "prod")])] : CDict).map Prod.fst).Nodup ∧
    ∃ cfg d, fromDict [("global", CVal.sect [("default_profile", "prod")])] = .ok (cfg, d) ∧
      (getKey [("global", CVal.sect [("default_profile", "prod")])] "prod" = none →
        getKey cfg "prod" = some seedSect ∧
        sectGet cfg "prod" "pennsieve_profile_name" = some "pennsieve") ∧
      (∀ k m, getKey [("global", CVal.sect [("default_profile", "prod")])] k
          = some (CVal.sect m) → getKey cfg k = some m) :=
  ⟨by decide, by decide, by decide, by decide,
   from_dict_nested_resolves [("global", CVal.sect [("default_profile", "prod")])]
     [("default_profile", "prod")] "prod" (by decide) (by decide) (by decide) (by decide)⟩

/-- C9: in the nested branch, when `global.default_profile` names a key absent
from the input, `from_dict` mutates the caller's dictionary in place: after the
call it carries the new top-level key `p` bound to
`{"pennsieve_profile_name": "pennsieve"}`, so the input object does not come
back unchanged. -/
theorem from_dict_nested_mutates_input (M : CDict) (g : Sect) (p : String)
    (hg : getKey M "global" = some (CVal.sect g))
    (hp : getKey g "default_profile" = some p)
    (habs : getKey M p = none)
    (hsect : allSect M = true) :
    ∃ cfg, fromDict M = .ok (cfg, M ++ [(p, CVal.sect seedSect)]) ∧
      getKey (M ++ [(p, CVal.sect seedSect)]) p = some (CVal.sect seedSect) ∧
      M ++ [(p, CVal.sect seedSect)] ≠ M := by
  have hflat : isFlat M = false := by simp [isFlat, hg]
  have hsect' : allSect (M ++ [(p, CVal.sect seedSect)]) = true := by
    simp [allSect, List.all_append] at hsect ⊢
    exact hsect
  obtain ⟨secs, hok, _, _⟩ :=
    sectEntries_of_allSect (M ++ [(p, CVal.sect seedSect)]) hsect'
  refine ⟨dictUpdate [] secs, ?_, ?_, ?_⟩
  · simp [fromDict, hflat, hg, hp, habs, hok]
  · rw [getKey_append, habs]
    simp [getKey]
  · intro h
    have := congrArg List.length h
    simp at this

/-- Witness for C9: the same input as the C2 witness; after the call the
caller's dictionary holds the synthesized section `prod`. -/
theorem from_dict_nested_mutates_input_witness :
    getKey [("global", CVal.sect [("default_profile", "prod")])] "global"
      = some (CVal.sect [("default_profile", "prod")]) ∧
    getKey [("default_profile", "prod")] "default_profile" = some "prod" ∧
    getKey [("global", CVal.sect [("default_profile", "prod")])] "prod" = none ∧
    allSect [("global", CVal.sect [("default_profile", "prod")])] = true ∧
    ∃ cfg, fromDict [("global", CVal.sect [("default_profile", "prod")])] =
        .ok (cfg, [("global", CVal.sect [("default_profile", "prod")])] ++
          [("prod", CVal.sect seedSect)]) ∧
      getKey ([("global", CVal.sect [("default_profile", "prod")])] ++
          [("prod", CVal.sect seedSect)]) "prod" = some (CVal.sect seedSect) ∧
      [("global", CVal.sect [("default_profile", "prod")])] ++
          [("prod", CVal.sect seedSect)] ≠
        [("global", CVal.sect [("default_profile", "prod")])] :=
  ⟨by decide, by decide, by decide, by decide,
   from_dict_nested_mutates_input [("global", CVal.sect [("default_profile", "prod")])]
     [("default_profile", "prod")] "prod" (by decide) (by decide) (by decide) (by decide)⟩

/-! The `connect()` loop. -/

/-- Every recorded module name has a facade attribute bound to it. -/
def attrsDefined (st : Facade) : Prop :=
  ∀ n ∈ st.module_names, (getKey st.attrs n).isSome

theorem attrsDefined_registerClasses (name : String) (st : Facade)
    (l : List ServiceClass) (h : attrsDefined st) :
    attrsDefined (registerClasses name st l) := by
  induction l generalizing st with
  | nil => exact h
  | cons cls rest ih =>
      apply ih
      intro n hn
      rw [getKey_setKey]
      by_cases hk : name = n
      · simp [hk]
      · rcases List.mem_append.mp hn with h' | h'
        · simpa [hk] using h n h'
        · simp at h'
          exact absurd h'.symm hk

theorem attrsDefined_addUnit (st st' : Facade) (u : PlugUnit)
    (h : attrsDefined st) (hok : addUnit st u = .ok st') : attrsDefined st' := by
  by_cases hi : u.importable = true
  · simp [addUnit, hi] at hok
    exact hok ▸ attrsDefined_registerClasses _ _ _ h
  · simp [addUnit, hi] at hok

theorem attrsDefined_initLoop (cfg : Config) (cur : String) (units : List PlugUnit) :
    ∀ st st', attrsDefined st → initLoop cfg cur st units = .ok st' →
      attrsDefined st' := by
  induction units with
  | nil =>
      intro st st' h hok
      simp [initLoop] at hok
      exact hok ▸ h
  | cons u rest ih =>
      intro st st' h hok
      cases hc : getKey cfg cur with
      | none => simp [initLoop, hc] at hok
      | some sec =>
          cases ha : addUnit st u with
          | error e => simp [initLoop, hc, ha] at hok
          | ok st1 =>
              simp only [initLoop, hc, ha] at hok
              exact ih st1 st' (attrsDefined_addUnit st st1 u h ha) hok

theorem connectCalls_trace (attrs : List (String × Service)) (names : List String)
    (h : ∀ n ∈ names, (getKey attrs n).isSome) :
    ∃ t, connectCalls attrs names = some t ∧
      (∀ n svc, getKey attrs n = some svc →
        countOcc (n, svc.clsId) t =
          if svc.hasConnect then countName n names else 0) ∧
      t.map Prod.fst = names.filter (hasConn attrs) := by
  induction names with
  | nil =>
      refine ⟨[], rfl, ?_, rfl⟩
      intro n svc _
      cases hb : svc.hasConnect <;> simp [countOcc, countName]
  | cons m rest ih =>
      have hm : (getKey attrs m).isSome := h m (by simp)
      obtain ⟨svcm, hsvcm⟩ := Option.isSome_iff_exists.mp hm
      have hrest : ∀ n ∈ rest, (getKey attrs n).isSome := fun n hn => h n (by simp [hn])
      obtain ⟨t, hok, hcount, hmap⟩ := ih hrest
      refine ⟨if svcm.hasConnect then (m, svcm.clsId) :: t else t, ?_, ?_, ?_⟩
      · simp [connectCalls, hsvcm, hok]
      · intro n svc hsvc
        by_cases hmn : m = n
        · subst hmn
          have hsame : svcm = svc := by
            rw [hsvcm] at hsvc
            exact Option.some.inj hsvc
          subst hsame
          cases hb : svcm.hasConnect <;>
            simp [hb, countOcc, countName, hcount m svcm hsvcm]
        · have hne : ((m, svcm.clsId) = (n, svc.clsId)) = False := by
            simp [Prod.ext_iff]
            intro hc
            exact absurd hc hmn
          cases hb : svcm.hasConnect <;>
            cases hb' : svc.hasConnect <;>
              simp [hb, hb', countOcc, countName, hne, hmn,
                hcount n svc hsvc]
      · cases hb : svcm.hasConnect <;>
          simp [hb, hmap, List.filter_cons, hasConn, hsvcm]

/-- C8 (amended): after any construction with connect=false, `connect()`
returns `True` and invokes, for each entry of `module_names` in order, the
connect operation of the service currently bound to that name when it has one:
a service bound to a name occurring `k` times receives `k` calls (so exactly
one when module names are distinct), and instances overwritten during
registration receive none. -/
theorem connect_calls_per_occurrence (outcome : ReadOutcome) (units : List PlugUnit)
    (cfg : Config) (st : Facade)
    (hinit : clientInit outcome units = .ok (cfg, st)) :
    ∃ t, connectAll st = some (t, true) ∧
      (∀ n svc, getKey st.attrs n = some svc →
        countOcc (n, svc.clsId) t =
          if svc.hasConnect then countName n st.module_names else 0) ∧
      t.map Prod.fst = st.module_names.filter (hasConn st.attrs) := by
  have hmod : init_modules (configRead seedConfig outcome) units = .ok st := by
    have hinit' : Except.map (fun x => (configRead seedConfig outcome, x))
        (init_modules (configRead seedConfig outcome) units) = Except.ok (cfg, st) := hinit
    cases hmod : init_modules (configRead seedConfig outcome) units with
    | error e =>
        rw [hmod] at hinit'
        simp [Except.map] at hinit'
    | ok st0 =>
        rw [hmod] at hinit'
        simp [Except.map] at hinit'
        rw [hinit'.2]
  have hdef : attrsDefined st := by
    unfold init_modules at hmod
    cases hcur : sectGet (configRead seedConfig outcome) "global" "default_profile" with
    | none => rw [hcur] at hmod; cases hmod
    | some cur =>
        rw [hcur] at hmod
        refine attrsDefined_initLoop _ cur units ⟨[], []⟩ st ?_ hmod
        intro n hn
        simp at hn
  obtain ⟨t, hok, hcount, hmap⟩ := connectCalls_trace st.attrs st.module_names hdef
  exact ⟨t, by simp [connectAll, hok], hcount, hmap⟩

/-- Witness for C8: one unit, one service class, constructed with
connect=false. -/
theorem connect_calls_per_occurrence_witness :
    clientInit ReadOutcome.missing [⟨"pennsieve", true, [⟨0, true⟩]⟩] =
      .ok (seedConfig, ⟨["pennsieve"], [("pennsieve", ⟨0, true⟩)]⟩) ∧
    ∃ t, connectAll ⟨["pennsieve"], [("pennsieve", ⟨0, true⟩)]⟩ = some (t, true) ∧
      (∀ n svc, getKey [("pennsieve", (⟨0, true⟩ : Service))] n = some svc →
        countOcc (n, svc.clsId) t =
          if svc.hasConnect then countName n ["pennsieve"] else 0) ∧
      t.map Prod.fst = ["pennsieve"].filter (hasConn [("pennsieve", ⟨0, true⟩)]) :=
  ⟨rfl,
   connect_calls_per_occurrence ReadOutcome.missing [⟨"pennsieve", true, [⟨0, true⟩]⟩]
     seedConfig ⟨["pennsieve"], [("pennsieve", ⟨0, true⟩)]⟩ rfl⟩

/-- Counterexample for C8 as stated: a unit with two qualifying service
classes.  Its short name is recorded twice, the surviving instance (id 2) is
the only one reachable, and `connect()` invokes its connect operation twice,
not exactly once per service. -/
theorem connect_not_exactly_once_counterexample :
    clientInit ReadOutcome.missing
      [⟨"sparc.client.services.dup", true, [⟨1, true⟩, ⟨2, true⟩]⟩] =
      .ok (seedConfig, ⟨["dup", "dup"], [("dup", ⟨2, true⟩)]⟩) ∧
    connectAll ⟨["dup", "dup"], [("dup", ⟨2, true⟩)]⟩ =
      some ([("dup", 2), ("dup", 2)], true) ∧
    countOcc ("dup", 2) [("dup", 2), ("dup", 2)] ≠ 1 :=
  ⟨rfl, rfl, by decide⟩

/-! `from_env`: process environment and dotenv file. -/

/-- The process environment: variable name to value. -/
abbrev Env := List (String × String)

/-- `load_dotenv(dotenv_path)` of the python-dotenv library with its default
`override=False`: each assignment of the dotenv file sets the process variable
only when that variable is not already present in the environment. -/
def load_dotenv (env : Env) (dotenvFile : Env) : Env :=
  dotenvFile.foldl (fun e kv => if (getKey e kv.1).isSome then e else e ++ [kv]) env

/-- The `env_mapping` table of `from_env` (client.py lines 207-213). -/
def env_mapping : List (String × String) :=
  [("SPARC_PENNSIEVE_PROFILE", "pennsieve_profile_name"),
   ("SPARC_SCICRUNCH_API_KEY", "scicrunch_api_key"),
   ("SPARC_O2SPARC_HOST", "o2sparc_host"),
   ("SPARC_O2SPARC_USERNAME", "o2sparc_username"),
   ("SPARC_O2SPARC_PASSWORD", "o2sparc_password")]

/-- The flat dictionary built by `from_env` (client.py lines 216-220): each
recognized variable that `os.environ.get` finds set contributes its config
key. -/
def envConfigDict (env : Env) : CDict :=
  env_mapping.filterMap (fun m => (getKey env m.1).map (fun v => (m.2, CVal.str v)))

/-- `SparcClient.from_env` (client.py lines 169-223), restricted to the
configuration it resolves.  `dotenvFile` is `some f` when a dotenv file is
loaded (a path that exists and was not opted out of with `dotenv_path=False`),
`none` otherwise; the built flat dictionary is delegated to `from_dict`. -/
def from_env (env : Env) (dotenvFile : Option Env) : Except String (Config × CDict) :=
  let env' :=
    match dotenvFile with
    | some f => load_dotenv env f
    | none => env
  fromDict (envConfigDict env')

theorem load_dotenv_keeps_existing (env dotenvFile : Env) (k v : String)
    (h : getKey env k = some v) : getKey (load_dotenv env dotenvFile) k = some v := by
  induction dotenvFile generalizing env with
  | nil => exact h
  | cons kv rest ih =>
      have step : load_dotenv env (kv :: rest) =
          load_dotenv (if (getKey env kv.1).isSome then env else env ++ [kv]) rest := rfl
      rw [step]
      by_cases hs : (getKey env kv.1).isSome
      · simpa [hs] using ih env h
      · have h' : getKey (env ++ [kv]) k = some v := by
          rw [getKey_append, h]
          rfl
        simpa [hs] using ih (env ++ [kv]) h'

theorem getKey_isSome_iff_mem (l : List (String × α)) (k : String) :
    (getKey l k).isSome ↔ k ∈ l.map Prod.fst := by
  constructor
  · intro h
    induction l with
    | nil => simp [getKey] at h
    | cons kv rest ih =>
        by_cases hk : kv.1 = k
        · simp [hk]
        · simp [getKey, hk] at h
          simp [ih h]
  · exact getKey_isSome_of_mem l k

theorem envMap_keys_subset (ms : List (String × String)) (e : Env) (k : String)
    (h : k ∈ (ms.filterMap
        (fun m => (getKey e m.1).map (fun v => (m.2, CVal.str v)))).map Prod.fst) :
    k ∈ ms.map Prod.snd := by
  induction ms with
  | nil => simp at h
  | cons m rest ih =>
      cases hv : getKey e m.1 with
      | none =>
          simp only [List.filterMap_cons, hv, Option.map_none'] at h
          simp only [List.map_cons, List.mem_cons]
          exact Or.inr (ih h)
      | some v =>
          simp only [List.filterMap_cons, hv, Option.map_some'] at h
          simp only [List.map_cons, List.mem_cons] at h ⊢
          rcases h with h | h
          · exact Or.inl h
          · exact Or.inr (ih h)

theorem getKey_envMap (ms : List (String × String)) (e : Env) (ev ck : String)
    (hmem : (ev, ck) ∈ ms) (hnd : (ms.map Prod.snd).Nodup) :
    getKey (ms.filterMap (fun m => (getKey e m.1).map (fun v => (m.2, CVal.str v)))) ck
      = (getKey e ev).map CVal.str := by
  induction ms with
  | nil => cases hmem
  | cons m rest ih =>
      obtain ⟨m1, m2⟩ := m
      simp only [List.map_cons, List.nodup_cons] at hnd
      obtain ⟨hm2, hrest⟩ := hnd
      rcases List.mem_cons.mp hmem with h | h
      · cases h
        cases hv : getKey e ev with
        | some v => simp [List.filterMap_cons, hv, getKey]
        | none =>
            have hnotin : ck ∉ (rest.filterMap
                (fun m => (getKey e m.1).map (fun v => (m.2, CVal.str v)))).map Prod.fst :=
              fun hmm => hm2 (envMap_keys_subset rest e ck hmm)
            simp [List.filterMap_cons, hv, getKey_eq_none _ _ hnotin]
      · have hck : m2 ≠ ck := by
          intro he
          apply hm2
          rw [he]
          exact List.mem_map.mpr ⟨(ev, ck), h, rfl⟩
        cases hv : getKey e m1 with
        | none => simpa [List.filterMap_cons, hv] using ih h hrest
        | some v => simpa [List.filterMap_cons, hv, getKey, hck] using ih h hrest

theorem allStr_getKey (d : CDict) (h : allStr d = true) (k : String) (v : CVal)
    (hk : getKey d k = some v) : ∃ s, v = CVal.str s := by
  induction d with
  | nil => cases hk
  | cons q rest ih =>
      simp only [allStr, List.all_cons, Bool.and_eq_true] at h
      obtain ⟨hv, hrest⟩ := h
      by_cases hq : q.1 = k
      · simp [getKey, hq] at hk
        cases hqv : q.2 with
        | str s => exact ⟨s, by rw [← hk, hqv]⟩
        | sect m => rw [hqv] at hv; simp at hv
      · simp only [getKey, if_neg hq] at hk
        exact ih hrest hk

theorem isFlat_of_allStr (d : CDict) (h : allStr d = true) : isFlat d = true := by
  unfold isFlat
  cases hg : getKey d "global" with
  | none => rfl
  | some v =>
      obtain ⟨s, rfl⟩ := allStr_getKey d h "global" v hg
      rfl

theorem allStr_envMap (ms : List (String × String)) (e : Env) :
    allStr (ms.filterMap
      (fun m => (getKey e m.1).map (fun v => (m.2, CVal.str v)))) = true := by
  induction ms with
  | nil => rfl
  | cons m rest ih =>
      cases hv : getKey e m.1 with
      | none => simpa [List.filterMap_cons, hv] using ih
      | some v =>
          simp only [allStr] at ih ⊢
          simp only [List.filterMap_cons, hv, Option.map_some', List.all_cons]
          simp [ih]

theorem nodup_keys_envMap (ms : List (String × String)) (e : Env)
    (hnd : (ms.map Prod.snd).Nodup) :
    ((ms.filterMap
      (fun m => (getKey e m.1).map (fun v => (m.2, CVal.str v)))).map Prod.fst).Nodup := by
  induction ms with
  | nil => simp
  | cons m rest ih =>
      simp only [List.map_cons, List.nodup_cons] at hnd
      obtain ⟨hm2, hrest⟩ := hnd
      cases hv : getKey e m.1 with
      | none => simpa [List.filterMap_cons, hv] using ih hrest
      | some v =>
          simp only [List.filterMap_cons, hv, Option.map_some', List.map_cons,
            List.nodup_cons]
          exact ⟨fun hmm => hm2 (envMap_keys_subset rest e m.2 hmm), ih hrest⟩

theorem envMap_key_from (ms : List (String × String)) (e : Env) (k : String)
    (h : k ∈ (ms.filterMap
        (fun m => (getKey e m.1).map (fun v => (m.2, CVal.str v)))).map Prod.fst) :
    ∃ ev, (ev, k) ∈ ms ∧ (getKey e ev).isSome := by
  induction ms with
  | nil => simp at h
  | cons m rest ih =>
      cases hv : getKey e m.1 with
      | none =>
          simp only [List.filterMap_cons, hv, Option.map_none'] at h
          obtain ⟨ev, hmem, hs⟩ := ih h
          exact ⟨ev, List.mem_cons_of_mem _ hmem, hs⟩
      | some v =>
          simp only [List.filterMap_cons, hv, Option.map_some', List.map_cons,
            List.mem_cons] at h
          rcases h with h | h
          · refine ⟨m.1, ?_, by simp [hv]⟩
            rw [h]
            simp
          · obtain ⟨ev, hmem, hs⟩ := ih h
            exact ⟨ev, List.mem_cons_of_mem _ hmem, hs⟩

theorem envMap_key_isSome_iff (ms : List (String × String)) (e : Env) (k : String)
    (hnd : (ms.map Prod.snd).Nodup) :
    (getKey (ms.filterMap
        (fun m => (getKey e m.1).map (fun v => (m.2, CVal.str v)))) k).isSome
      ↔ ∃ ev, (ev, k) ∈ ms ∧ (getKey e ev).isSome := by
  constructor
  · exact fun h => envMap_key_from ms e k ((getKey_isSome_iff_mem _ k).mp h)
  · rintro ⟨ev, hmem, hs⟩
    rw [getKey_envMap ms e ev k hmem hnd]
    simpa using hs

/-- C6: in `from_env`, a recognized variable set in the process environment
before the dotenv file is loaded keeps its process value in the resolved
configuration (`load_dotenv` never overwrites an existing variable), and the
flat mapping handed to `from_dict` holds exactly the recognized variables that
end up set. -/
theorem from_env_realenv_wins (env dotenvFile : Env) (ev ck v : String)
    (hmap : (ev, ck) ∈ env_mapping)
    (hset : getKey env ev = some v) :
    ∃ cfg M, from_env env (some dotenvFile) = .ok (cfg, M) ∧
      sectGet cfg "default" ck = some v ∧
      ∀ k, (getKey M k).isSome ↔
        ∃ ev', (ev', k) ∈ env_mapping ∧
          (getKey (load_dotenv env dotenvFile) ev').isSome := by
  have hnds : (env_mapping.map Prod.snd).Nodup := by decide
  have hset' : getKey (load_dotenv env dotenvFile) ev = some v :=
    load_dotenv_keeps_existing env dotenvFile ev v hset
  have hstr : allStr (envConfigDict (load_dotenv env dotenvFile)) = true :=
    allStr_envMap env_mapping (load_dotenv env dotenvFile)
  have hflat : isFlat (envConfigDict (load_dotenv env dotenvFile)) = true :=
    isFlat_of_allStr _ hstr
  have hnd : ((envConfigDict (load_dotenv env dotenvFile)).map Prod.fst).Nodup :=
    nodup_keys_envMap env_mapping (load_dotenv env dotenvFile) hnds
  obtain ⟨cfg, hok, hglob, hdef⟩ :=
    fromDict_flat_spec (envConfigDict (load_dotenv env dotenvFile)) hflat hstr hnd
  refine ⟨cfg, envConfigDict (load_dotenv env dotenvFile), hok, ?_, ?_⟩
  · have hgk : getKey (envConfigDict (load_dotenv env dotenvFile)) ck
        = some (CVal.str v) := by
      have h := getKey_envMap env_mapping (load_dotenv env dotenvFile) ev ck hmap hnds
      rw [hset'] at h
      exact h
    rw [hdef ck, hgk]
    rfl
  · intro k
    exact envMap_key_isSome_iff env_mapping (load_dotenv env dotenvFile) k hnds

/-- Witness for C6: `SPARC_PENNSIEVE_PROFILE` set to `env_profile` in the
process environment and to `dotenv_profile` in the dotenv file; the resolved
profile keeps `env_profile`. -/
theorem from_env_realenv_wins_witness :
    (("SPARC_PENNSIEVE_PROFILE", "pennsieve_profile_name") ∈ env_mapping) ∧
    getKey [("SPARC_PENNSIEVE_PROFILE", "env_profile")] "SPARC_PENNSIEVE_PROFILE"
      = some "env_profile" ∧
    ∃ cfg M, from_env [("SPARC_PENNSIEVE_PROFILE", "env_profile")]
        (some [("SPARC_PENNSIEVE_PROFILE", "dotenv_profile")]) = .ok (cfg, M) ∧
      sectGet cfg "default" "pennsieve_profile_name" = some "env_profile" ∧
      ∀ k, (getKey M k).isSome ↔
        ∃ ev', (ev', k) ∈ env_mapping ∧
          (getKey (load_dotenv [("SPARC_PENNSIEVE_PROFILE", "env_profile")]
            [("SPARC_PENNSIEVE_PROFILE", "dotenv_profile")]) ev').isSome :=
  ⟨by decide, by decide,
   from_env_realenv_wins [("SPARC_PENNSIEVE_PROFILE", "env_profile")]
     [("SPARC_PENNSIEVE_PROFILE", "dotenv_profile")] "SPARC_PENNSIEVE_PROFILE"
     "pennsieve_profile_name" "env_profile" (by decide) (by decide)⟩

end SparcClient
